import Mathlib

/-!
Shallow embedding of the message-store query/search/thread engine
(`src/Workflow/scripts/email-tools.py`, class `EmailTools`) and the panel
consensus engine (`src/Workflow/scripts/panel-coordinator.py`, class
`PanelCoordinator`), together with theorems settling the frozen claims
about them.

Modelling conventions:
- A maildir is a list of `(key, raw message)` pairs in the order in which
  `mailbox.Maildir.keys()` enumerates them (an arbitrary, filesystem
  dependent order; it is NOT sorted by key).
- Raw messages are header records; the RFC 5322 parser of the Python
  standard library is external to the repository, so the date parser
  `email.utils.parsedate_tz`/`mktime_tz` composition is abstracted as a
  parameter `parseDate : String -> Option Int` (returning `none` exactly
  when `parsedate_tz` returns `None`, i.e. the date is unparsable).
- Python string operations used by the code (`strip`, `split`, `lower`,
  `in`, `startswith`) are re-implemented over `List Char` so that every
  definition is executable by the kernel.
- `_parse_since` is abstracted by its result: search takes the already
  computed cutoff `Option Int` (the code computes it once before the
  scan; a malformed `since` raises before any message is visited).
-/

/-- Whitespace strip on both ends, translating Python `str.strip()`. -/
def pyStrip (s : String) : String :=
  String.mk (((s.toList.dropWhile Char.isWhitespace).reverse.dropWhile Char.isWhitespace).reverse)

/-- Splitting on a separator character, translating Python `str.split(sep)`
(note `"".split(sep) == [""]`). -/
def pySplitCharAux (sep : Char) : List Char → List Char → List (List Char)
  | [], acc => [acc.reverse]
  | c :: cs, acc =>
    if c == sep then acc.reverse :: pySplitCharAux sep cs []
    else pySplitCharAux sep cs (c :: acc)

/-- Splitting a string on a separator character. -/
def pySplitChar (sep : Char) (s : String) : List String :=
  (pySplitCharAux sep s.toList []).map String.mk

/-- Whitespace splitting, translating Python `str.split()` with no
argument: runs of whitespace separate, empty pieces are dropped. -/
def pySplitWsAux : List Char → List Char → List (List Char)
  | [], acc => if acc.isEmpty then [] else [acc.reverse]
  | c :: cs, acc =>
    if c.isWhitespace then
      (if acc.isEmpty then pySplitWsAux cs [] else acc.reverse :: pySplitWsAux cs [])
    else pySplitWsAux cs (c :: acc)

/-- Whitespace splitting of a string. -/
def pySplitWs (s : String) : List String :=
  (pySplitWsAux s.toList []).map String.mk

/-- Lowercasing, translating Python `str.lower()` on ASCII subjects. -/
def pyLower (s : String) : String :=
  String.mk (s.toList.map Char.toLower)

/-- Contiguous-sublist check on lists: `containsSub pat l` is true when
`pat` occurs as a contiguous run inside `l`. -/
def containsSub (pat : List Char) : List Char → Bool
  | [] => pat.isEmpty
  | c :: cs => pat.isPrefixOf (c :: cs) || containsSub pat cs

/-- Substring test, translating the Python operator `pat in s` on strings. -/
def pySubstr (pat s : String) : Bool :=
  containsSub pat.toList s.toList

/-- Prefix test, translating Python `s.startswith(pat)`. -/
def pyStartsWith (s pat : String) : Bool :=
  pat.toList.isPrefixOf s.toList

namespace EmailTools

/-- Raw stored message, as the header view that `email-tools.py` reads
through `msg.get(header, '')`: each field holds the raw header value,
with the empty string standing for a missing header. -/
structure RawMsg where
  messageId : String
  fromAddr : String
  toAddr : String
  subject : String
  date : String
  xEventType : String
  xArtifacts : String
  xWorkflowState : String
  xSessionId : String
  inReplyTo : String
  references : String
  deriving Repr, DecidableEq

/-- Metadata record returned by `EmailTools._extract_metadata`. -/
structure Metadata where
  key : String
  messageId : String
  fromAddr : String
  toAddr : String
  subject : String
  date : String
  timestamp : Int
  eventType : String
  artifacts : List String
  workflowState : String
  sessionId : String
  inReplyTo : String
  references : List String
  deriving Repr, DecidableEq

/-- Translation of `EmailTools._extract_metadata`: the timestamp is the
parse of the raw `Date` header, with fallback 0 when `parsedate_tz`
returns `None`; every other field is the stripped header value;
`X-Artifacts` is split on commas, each piece stripped, empties dropped;
`References` is whitespace split after stripping. -/
def extractMetadata (parseDate : String → Option Int) (msg : RawMsg) (key : String) : Metadata :=
  { key := key
    messageId := pyStrip msg.messageId
    fromAddr := pyStrip msg.fromAddr
    toAddr := pyStrip msg.toAddr
    subject := pyStrip msg.subject
    date := pyStrip msg.date
    timestamp :=
      match parseDate msg.date with
      | some t => t
      | none => 0
    eventType := pyStrip msg.xEventType
    artifacts := ((pySplitChar ',' msg.xArtifacts).map pyStrip).filter (fun a => a ≠ "")
    workflowState := pyStrip msg.xWorkflowState
    sessionId := pyStrip msg.xSessionId
    inReplyTo := pyStrip msg.inReplyTo
    references := pySplitWs (pyStrip msg.references) }

/-- Search criteria of `EmailTools.search`; `sinceCutoff` is the timestamp
computed by `_parse_since` (or `none` when no `since` is given). -/
structure Criteria where
  eventType : Option String
  artifact : Option String
  sinceCutoff : Option Int
  state : Option String
  fromRole : Option String
  toRole : Option String
  limit : Option Nat
  deriving Repr, DecidableEq

/-- Translation of the `since` filter line
`if since_timestamp and metadata['timestamp'] < since_timestamp: continue`:
the message is kept unless the cutoff is truthy (nonzero) and the
timestamp is below it. -/
def matchesSince (cutoff : Option Int) (ts : Int) : Bool :=
  match cutoff with
  | none => true
  | some c => decide (c = 0) || decide (c ≤ ts)

/-- Translation of the `event_type` filter (a falsy, i.e. empty, filter
string deactivates the filter, as in the Python truthiness test). -/
def matchesEventType (f : Option String) (et : String) : Bool :=
  match f with
  | none => true
  | some s => s == "" || et == s

/-- Translation of `EmailTools._artifact_matches`: symmetric containment
against any artifact entry. -/
def artifactMatches (artifacts : List String) (pat : String) : Bool :=
  artifacts.any (fun a => pySubstr pat a || pySubstr a pat)

/-- Translation of the `artifact` filter. -/
def matchesArtifact (f : Option String) (artifacts : List String) : Bool :=
  match f with
  | none => true
  | some p => p == "" || artifactMatches artifacts p

/-- Translation of the `state` filter. -/
def matchesState (f : Option String) (st : String) : Bool :=
  match f with
  | none => true
  | some s => s == "" || st == s

/-- Translation of the `from_role` filter (prefix match on the sender). -/
def matchesFrom (f : Option String) (fromAddr : String) : Bool :=
  match f with
  | none => true
  | some s => s == "" || pyStartsWith fromAddr s

/-- Translation of the `to_role` filter (prefix match on the recipient). -/
def matchesTo (f : Option String) (toAddr : String) : Bool :=
  match f with
  | none => true
  | some s => s == "" || pyStartsWith toAddr s

/-- Conjunction of all filters of `EmailTools.search`, in the order of the
`continue` chain. -/
def matchesCriteria (c : Criteria) (md : Metadata) : Bool :=
  matchesSince c.sinceCutoff md.timestamp &&
  matchesEventType c.eventType md.eventType &&
  matchesArtifact c.artifact md.artifacts &&
  matchesState c.state md.workflowState &&
  matchesFrom c.fromRole md.fromAddr &&
  matchesTo c.toRole md.toAddr

/-- Translation of `if limit and len(results) >= limit: break` — the break
fires only for a truthy (nonzero) limit. -/
def limitHit (lim : Option Nat) (n : Nat) : Bool :=
  match lim with
  | none => false
  | some l => decide (l ≠ 0) && decide (l ≤ n)

/-- The scan loop of `EmailTools.search`: messages are visited in store
enumeration order, matching metadata is appended, and the loop breaks as
soon as the limit is reached — BEFORE any sorting happens. -/
def searchScan (pd : String → Option Int) (c : Criteria) :
    List (String × RawMsg) → List Metadata → List Metadata
  | [], acc => acc
  | (k, m) :: rest, acc =>
    let md := extractMetadata pd m k
    if matchesCriteria c md then
      let acc2 := acc ++ [md]
      if limitHit c.limit acc2.length then acc2
      else searchScan pd c rest acc2
    else searchScan pd c rest acc

/-- Stable descending insertion by timestamp: the new element is placed
after every strictly more recent element and before every element that is
not more recent, which reproduces the tie behaviour of the stable Python
`list.sort(key=..., reverse=True)`. -/
def insertTsDesc (x : Metadata) : List Metadata → List Metadata
  | [] => [x]
  | y :: ys => if y.timestamp > x.timestamp then y :: insertTsDesc x ys else x :: y :: ys

/-- Stable sort by timestamp descending, modelling
`results.sort(key=lambda x: x['timestamp'], reverse=True)`. -/
def sortTsDesc : List Metadata → List Metadata
  | [] => []
  | x :: xs => insertTsDesc x (sortTsDesc xs)

/-- Translation of `EmailTools.search`: scan (with in-loop limit break),
then stable sort by timestamp descending. -/
def search (pd : String → Option Int) (store : List (String × RawMsg)) (c : Criteria) :
    List Metadata :=
  sortTsDesc (searchScan pd c store [])

/-- Single pass of `EmailTools.get_thread` over the store: a message is
collected when its own id, its reply-to, or any of its references is
already known, and then (only then) its identifiers are added to the
known set. The Python code performs exactly ONE such pass. -/
def threadScan (pd : String → Option Int) :
    List (String × RawMsg) → List String → List Metadata → List Metadata
  | [], _, acc => acc
  | (k, m) :: rest, known, acc =>
    let msgId := pyStrip m.messageId
    let irt := pyStrip m.inReplyTo
    let refs := pySplitWs (pyStrip m.references)
    if known.contains msgId || known.contains irt || refs.any known.contains then
      let md := extractMetadata pd m k
      let known2 := known ++ (if msgId ≠ "" then [msgId] else [])
        ++ (if irt ≠ "" then [irt] else []) ++ refs
      threadScan pd rest known2 (acc ++ [md])
    else threadScan pd rest known acc

/-- Stable ascending insertion by timestamp (tie behaviour of the stable
Python `list.sort(key=...)`). -/
def insertTsAsc (x : Metadata) : List Metadata → List Metadata
  | [] => [x]
  | y :: ys => if y.timestamp < x.timestamp then y :: insertTsAsc x ys else x :: y :: ys

/-- Stable sort by timestamp ascending, modelling
`thread_messages.sort(key=lambda x: x['timestamp'])`. -/
def sortTsAsc : List Metadata → List Metadata
  | [] => []
  | x :: xs => insertTsAsc x (sortTsAsc xs)

/-- Translation of `EmailTools.get_thread`: one scan seeded with the
requested message id, then chronological (ascending) stable sort. -/
def get_thread (pd : String → Option Int) (store : List (String × RawMsg))
    (messageId : String) : List Metadata :=
  sortTsAsc (threadScan pd store [messageId] [])

end EmailTools

namespace PanelCoordinator

open EmailTools

/-- Member-name derivation in `PanelCoordinator.check_consensus`:
`from_role.split('@')[0] if '@' in from_role else from_role`, the first
segment being the characters before the first `@`. -/
def memberOfFrom (fromAddr : String) : String :=
  if fromAddr.toList.contains '@' then
    String.mk (fromAddr.toList.takeWhile (fun c => c ≠ '@'))
  else fromAddr

/-- Subject-keyword vote heuristic of `check_consensus`: lowercase the
subject, then test the substrings `approve`, `reject`,
`revision`/`clarification` in that fixed priority order. -/
def voteOfSubject (subject : String) : Option String :=
  let s := pyLower subject
  if pySubstr "approve" s then some "approve"
  else if pySubstr "reject" s then some "reject"
  else if pySubstr "revision" s || pySubstr "clarification" s then some "request-revision"
  else none

/-- One decision message contributes the pair (member, vote) when its
subject classifies, and nothing otherwise. -/
def classifyVote (d : Metadata) : Option (String × String) :=
  (voteOfSubject d.subject).map (fun v => (memberOfFrom d.fromAddr, v))

/-- Python dict write `member_decisions[member] = vote`: an existing key
keeps its position and gets the new value, a new key is appended (dicts
preserve insertion order). -/
def dictUpsert (l : List (String × String)) (k v : String) : List (String × String) :=
  if l.any (fun p => p.1 == k) then
    l.map (fun p => if p.1 == k then (k, v) else p)
  else l ++ [(k, v)]

/-- Python dict read returning the value stored under a key, when any. -/
def dictGet (l : List (String × String)) (k : String) : Option String :=
  (l.find? (fun p => p.1 == k)).map (fun p => p.2)

/-- The vote-aggregation loop of `check_consensus`: iterate the decision
messages in the given order, overwriting the per-member entry on every
message whose subject classifies. -/
def aggregateVotes (ds : List Metadata) : List (String × String) :=
  ds.foldl
    (fun acc d =>
      match classifyVote d with
      | some (m, v) => dictUpsert acc m v
      | none => acc)
    []

/-- The vote held by the member according to the LAST classifiable message
of that member in the list (the value the dict holds after the loop). -/
def lastVoteFor (m : String) : List Metadata → Option String
  | [] => none
  | d :: rest =>
    match lastVoteFor m rest with
    | some v => some v
    | none =>
      match classifyVote d with
      | some (m2, v) => if m2 == m then some v else none
      | none => none

/-- Translation of `Counter(values).most_common(1)[0]` restricted to what
the code observes: some value of maximal multiplicity in `vals`, paired
with that multiplicity, scanning the candidate list `cands`. -/
def argmaxCount (vals : List String) : List String → Option (String × Nat)
  | [] => none
  | c :: cs =>
    match argmaxCount vals cs with
    | none => some (c, vals.count c)
    | some (w, n) => if vals.count c > n then some (c, vals.count c) else some (w, n)

/-- The most common value of a list together with its count (`none` only
for the empty list, where the Python `most_common(1)[0]` raises). -/
def mostCommon1 (vals : List String) : Option (String × Nat) :=
  argmaxCount vals vals.dedup

/-- The decision-model dispatch at the end of `check_consensus`, applied
to the aggregated per-member vote map. The tag accepted for the unanimous
policy is the string `consensus`, exactly as in the code; an unknown tag
raises `ValueError`, modelled as `Except.error`. The `majority` branch on
an empty map reproduces the `IndexError` of `most_common(1)[0]` (that
branch is unreachable from `check_consensus`, which returns earlier on an
empty map). -/
def applyDecisionModel (members : List String) (model : String)
    (votes : List (String × String)) : Except String (Option String) :=
  if model == "consensus" then
    match (votes.map (fun p => p.2)).dedup with
    | [v] => .ok (some v)
    | _ => .ok none
  else if model == "majority" then
    match mostCommon1 (votes.map (fun p => p.2)) with
    | none => .error "IndexError"
    | some (v, n) => if 2 * n > votes.length then .ok (some v) else .ok none
  else if model == "primary-decides" then
    match members with
    | [] => .ok none
    | p :: _ =>
      match dictGet votes p with
      | some v => .ok (some v)
      | none => .ok none
  else .error ("Unknown decision model: " ++ model)

/-- Translation of `PanelCoordinator.check_consensus`, taking the panel
member list, the decision-model tag, and the list of decision messages as
returned by `EmailTools.search(event_type='panel-decision', since='7d')`
(hence sorted by timestamp descending). Zero decision messages, or zero
classifiable subjects, return no consensus before the decision model is
examined. -/
def check_consensus (members : List String) (decisionModel : String)
    (decisions : List Metadata) : Except String (Option String) :=
  if decisions.isEmpty then .ok none
  else
    let memberDecisions := aggregateVotes decisions
    if memberDecisions.isEmpty then .ok none
    else applyDecisionModel members decisionModel memberDecisions

end PanelCoordinator

/-- Specification-side notion of keyword occurrence: the pattern occurs
somewhere inside the string as a contiguous substring. -/
def occursIn (pat s : String) : Prop :=
  ∃ pre post : String, s = pre ++ pat ++ post

/-- Concrete date parser used by the witnesses: a finite table of parsable
date strings (every other string, e.g. `garbage`, is unparsable). -/
def parseDateSample : String → Option Int := fun s =>
  if s = "1" then some 1
  else if s = "2" then some 2
  else if s = "3" then some 3
  else if s = "100" then some 100
  else if s = "200" then some 200
  else none

/-- Builder for concrete raw messages in witnesses (unused headers empty,
as `msg.get(header, '')` yields for absent headers). -/
def mkRawMsg (mid irt refs date subj fromA : String) : EmailTools.RawMsg :=
  { messageId := mid, fromAddr := fromA, toAddr := "", subject := subj, date := date,
    xEventType := "", xArtifacts := "", xWorkflowState := "", xSessionId := "",
    inReplyTo := irt, references := refs }

/-- Criteria with every filter off. -/
def noCriteria : EmailTools.Criteria :=
  { eventType := none, artifact := none, sinceCutoff := none, state := none,
    fromRole := none, toRole := none, limit := none }

/-- Message whose date parses to timestamp 100. -/
def msgTs100 : EmailTools.RawMsg := mkRawMsg "<a>" "" "" "100" "" ""

/-- Message whose date parses to timestamp 200. -/
def msgTs200 : EmailTools.RawMsg := mkRawMsg "<b>" "" "" "200" "" ""

/-- Thread seed message A with id 1 (timestamp 1). -/
def msgThreadA : EmailTools.RawMsg := mkRawMsg "<1>" "" "" "1" "" ""

/-- Thread message B replying to A (timestamp 2). -/
def msgThreadB : EmailTools.RawMsg := mkRawMsg "<2>" "<1>" "" "2" "" ""

/-- Thread message C replying to B (timestamp 3). -/
def msgThreadC : EmailTools.RawMsg := mkRawMsg "<3>" "<2>" "" "3" "" ""

/-- Message with an unparsable date header. -/
def msgBadDate : EmailTools.RawMsg := mkRawMsg "<bad>" "" "" "garbage" "" ""

/-- Concrete decision metadata for the consensus witnesses. -/
def mkDecision (fromA subj : String) (ts : Int) : EmailTools.Metadata :=
  { key := "", messageId := "", fromAddr := fromA, toAddr := "", subject := subj, date := "",
    timestamp := ts, eventType := "panel-decision", artifacts := [], workflowState := "",
    sessionId := "", inReplyTo := "", references := [] }

/-- Decision message used by the unknown-decision-model witness. -/
def wUnknownModelVote : EmailTools.Metadata := mkDecision "claude@panel.local" "approve" 1

/-- Decision message used by the extraction witness: sender with a domain
part and a subject holding two keywords. -/
def wExtractionMsg : EmailTools.Metadata :=
  mkDecision "gpt-5@panel.local" "approve with reservations, reject otherwise" 4

/-- Recency-sorted decision list of one member: a newer reject, then an
older approve. -/
def wMemberHistory : List EmailTools.Metadata :=
  [mkDecision "claude@panel.local" "reject" 10, mkDecision "claude@panel.local" "approve" 5]

/-- Criteria with only a limit of 1. -/
def critLimit1 : EmailTools.Criteria := { noCriteria with limit := some 1 }

/-- Criteria with a limit of 0 (falsy in Python, so no limit at all). -/
def critLimit0 : EmailTools.Criteria := { noCriteria with limit := some 0 }

/-- Criteria with only a since cutoff of 50. -/
def critSince50 : EmailTools.Criteria := { noCriteria with sinceCutoff := some 50 }

/-- First of two messages sharing the same timestamp. -/
def msgEqP : EmailTools.RawMsg := mkRawMsg "<p>" "" "" "100" "" ""

/-- Second of two messages sharing the same timestamp. -/
def msgEqQ : EmailTools.RawMsg := mkRawMsg "<q>" "" "" "100" "" ""

namespace EmailTools

lemma mem_insertTsDesc {z x : Metadata} {l : List Metadata} :
    z ∈ insertTsDesc x l ↔ z = x ∨ z ∈ l := by
  induction l with
  | nil => simp [insertTsDesc]
  | cons y ys ih =>
    by_cases h : y.timestamp > x.timestamp
    · simp only [insertTsDesc, if_pos h, List.mem_cons, ih]
      tauto
    · simp only [insertTsDesc, if_neg h, List.mem_cons]

lemma pairwise_insertTsDesc {x : Metadata} {l : List Metadata}
    (h : l.Pairwise (fun a b => b.timestamp ≤ a.timestamp)) :
    (insertTsDesc x l).Pairwise (fun a b => b.timestamp ≤ a.timestamp) := by
  induction l with
  | nil => simp [insertTsDesc]
  | cons y ys ih =>
    rcases List.pairwise_cons.mp h with ⟨hy, hys⟩
    by_cases hgt : y.timestamp > x.timestamp
    · rw [insertTsDesc, if_pos hgt]
      refine List.pairwise_cons.mpr ⟨?_, ih hys⟩
      intro z hz
      rcases mem_insertTsDesc.mp hz with rfl | hz2
      · exact le_of_lt hgt
      · exact hy z hz2
    · rw [insertTsDesc, if_neg hgt]
      push_neg at hgt
      refine List.pairwise_cons.mpr ⟨?_, h⟩
      intro z hz
      rcases List.mem_cons.mp hz with rfl | hz2
      · exact hgt
      · exact le_trans (hy z hz2) hgt

lemma sortTsDesc_pairwise (l : List Metadata) :
    (sortTsDesc l).Pairwise (fun a b => b.timestamp ≤ a.timestamp) := by
  induction l with
  | nil => simp [sortTsDesc]
  | cons x xs ih => exact pairwise_insertTsDesc ih

lemma filter_insertTsDesc (t : Int) (x : Metadata) (l : List Metadata) :
    (insertTsDesc x l).filter (fun y => y.timestamp == t) =
      (x :: l).filter (fun y => y.timestamp == t) := by
  induction l with
  | nil => rfl
  | cons y ys ih =>
    by_cases hgt : y.timestamp > x.timestamp
    · rw [insertTsDesc, if_pos hgt]
      by_cases hx : x.timestamp = t <;> by_cases hy : y.timestamp = t
    -- the two heads cannot both have timestamp t, since one is strictly above the other
      · exfalso
        rw [hx] at hgt
        rw [hy] at hgt
        exact lt_irrefl t hgt
      · simp [List.filter_cons, hx, hy, ih]
      · simp [List.filter_cons, hx, hy, ih]
      · simp [List.filter_cons, hx, hy, ih]
    · rw [insertTsDesc, if_neg hgt]

lemma sortTsDesc_filter (t : Int) (l : List Metadata) :
    (sortTsDesc l).filter (fun y => y.timestamp == t) =
      l.filter (fun y => y.timestamp == t) := by
  induction l with
  | nil => rfl
  | cons x xs ih =>
    rw [sortTsDesc, filter_insertTsDesc]
    simp only [List.filter_cons, ih]

lemma searchScan_skip {pd : String → Option Int} {c : Criteria} {k : String} {m : RawMsg}
    (hm : matchesCriteria c (extractMetadata pd m k) = false) :
    ∀ (pre post : List (String × RawMsg)) (acc : List Metadata),
      searchScan pd c (pre ++ (k, m) :: post) acc = searchScan pd c (pre ++ post) acc := by
  intro pre
  induction pre with
  | nil =>
    intro post acc
    simp [searchScan, hm]
  | cons p ps ih =>
    intro post acc
    rcases p with ⟨k2, m2⟩
    simp only [List.cons_append, searchScan, List.append_eq, ih]

end EmailTools

lemma string_toList_append (a b : String) : (a ++ b).toList = a.toList ++ b.toList := by
  cases a
  cases b
  rfl

lemma string_mk_toList (s : String) : String.mk s.toList = s := by
  cases s
  rfl

lemma containsSub_iff (pat l : List Char) :
    containsSub pat l = true ↔ ∃ pre post : List Char, l = pre ++ pat ++ post := by
  induction l with
  | nil =>
    simp only [containsSub, List.isEmpty_iff]
    constructor
    · intro h
      exact ⟨[], [], by simp [h]⟩
    · rintro ⟨pre, post, h⟩
      rcases List.append_eq_nil.mp (List.append_eq_nil.mp h.symm).1 with ⟨-, h2⟩
      exact h2
  | cons c cs ih =>
    simp only [containsSub, Bool.or_eq_true, ih]
    constructor
    · rintro (hp | ⟨pre, post, rfl⟩)
      · rcases List.isPrefixOf_iff_prefix.mp hp with ⟨post, hpost⟩
        exact ⟨[], post, by simp [hpost]⟩
      · exact ⟨c :: pre, post, by simp⟩
    · rintro ⟨pre, post, hsplit⟩
      cases pre with
      | nil =>
        left
        exact List.isPrefixOf_iff_prefix.mpr ⟨post, by simpa using hsplit.symm⟩
      | cons p0 ptl =>
        right
        refine ⟨ptl, post, ?_⟩
        have htwo := hsplit
        simp only [List.cons_append, List.cons.injEq] at htwo
        exact htwo.2

lemma pySubstr_iff (pat s : String) :
    pySubstr pat s = true ↔ occursIn pat s := by
  rw [pySubstr, containsSub_iff]
  constructor
  · rintro ⟨pre, post, h⟩
    refine ⟨String.mk pre, String.mk post, ?_⟩
    have hl : (String.mk pre ++ pat ++ String.mk post).toList = s.toList := by
      rw [string_toList_append, string_toList_append]
      exact h.symm
    calc s = String.mk s.toList := (string_mk_toList s).symm
    _ = String.mk (String.mk pre ++ pat ++ String.mk post).toList := by rw [hl]
    _ = String.mk pre ++ pat ++ String.mk post := string_mk_toList _
  · rintro ⟨pre, post, rfl⟩
    exact ⟨pre.toList, post.toList, by rw [string_toList_append, string_toList_append]⟩

lemma takeWhile_ne_append {pre post : List Char} (h : '@' ∉ pre) :
    ((pre ++ '@' :: post).takeWhile (fun c => c ≠ '@')) = pre := by
  simp only [ne_eq, decide_not]
  induction pre with
  | nil => simp [List.takeWhile_cons]
  | cons p ptl ih =>
    have hp : p ≠ '@' := fun hc => h (by simp [hc])
    have htl : '@' ∉ ptl := fun hc => h (by simp [hc])
    simp [List.takeWhile_cons, hp, ih htl]


namespace PanelCoordinator

lemma dictGet_cons (p : String × String) (ps : List (String × String)) (k2 : String) :
    dictGet (p :: ps) k2 = if p.1 = k2 then some p.2 else dictGet ps k2 := by
  simp only [dictGet, List.find?]
  cases hpk : (p.1 == k2)
  · rw [if_neg (by simpa using hpk)]
  · rw [if_pos (by simpa using hpk)]
    rfl

lemma dictGet_map_update_ne {l : List (String × String)} {k v k2 : String} (h : k2 ≠ k) :
    dictGet (l.map (fun p => if p.1 == k then (k, v) else p)) k2 = dictGet l k2 := by
  induction l with
  | nil => rfl
  | cons p ps ih =>
    by_cases hp : p.1 = k
    · have hhead : (if (p.1 == k) = true then (k, v) else p) = (k, v) := by
        rw [if_pos (by simp [hp])]
      rw [List.map_cons, hhead, dictGet_cons, dictGet_cons]
      have h1 : ¬ ((k, v).1 = k2) := by simpa using Ne.symm h
      have h2 : ¬ (p.1 = k2) := by
        rw [hp]
        exact Ne.symm h
      rw [if_neg h1, if_neg h2, ih]
    · have hhead : (if (p.1 == k) = true then (k, v) else p) = p := by
        rw [if_neg (by simp [hp])]
      rw [List.map_cons, hhead, dictGet_cons, dictGet_cons]
      by_cases hpk : p.1 = k2
      · rw [if_pos hpk, if_pos hpk]
      · rw [if_neg hpk, if_neg hpk, ih]

lemma dictGet_map_update_self {l : List (String × String)} {k v : String}
    (h : l.any (fun p => p.1 == k) = true) :
    dictGet (l.map (fun p => if p.1 == k then (k, v) else p)) k = some v := by
  induction l with
  | nil => simp at h
  | cons p ps ih =>
    by_cases hp : p.1 = k
    · have hhead : (if (p.1 == k) = true then (k, v) else p) = (k, v) := by
        rw [if_pos (by simp [hp])]
      rw [List.map_cons, hhead, dictGet_cons, if_pos rfl]
    · have hhead : (if (p.1 == k) = true then (k, v) else p) = p := by
        rw [if_neg (by simp [hp])]
      rw [List.map_cons, hhead, dictGet_cons, if_neg hp]
      simp only [List.any_cons, Bool.or_eq_true] at h
      rcases h with h | h
      · exact absurd (by simpa using h) hp
      · exact ih h

lemma dictGet_append_single_self {l : List (String × String)} {k v : String}
    (h : l.any (fun p => p.1 == k) = false) :
    dictGet (l ++ [(k, v)]) k = some v := by
  induction l with
  | nil =>
    rw [List.nil_append, dictGet_cons, if_pos rfl]
  | cons p ps ih =>
    simp only [List.any_cons, Bool.or_eq_false_iff] at h
    rw [List.cons_append, dictGet_cons, if_neg (by simpa using h.1)]
    exact ih h.2

lemma dictGet_append_single_ne {l : List (String × String)} {k v k2 : String} (h : k2 ≠ k) :
    dictGet (l ++ [(k, v)]) k2 = dictGet l k2 := by
  induction l with
  | nil =>
    rw [List.nil_append, dictGet_cons, if_neg (by simpa using Ne.symm h)]
  | cons p ps ih =>
    rw [List.cons_append, dictGet_cons, dictGet_cons, ih]

lemma dictGet_dictUpsert (l : List (String × String)) (k v k2 : String) :
    dictGet (dictUpsert l k v) k2 = if k2 = k then some v else dictGet l k2 := by
  unfold dictUpsert
  cases hany : l.any (fun p => p.1 == k)
  · rw [if_neg (by simp)]
    by_cases hk : k2 = k
    · subst hk
      rw [if_pos rfl]
      exact dictGet_append_single_self hany
    · rw [if_neg hk]
      exact dictGet_append_single_ne hk
  · rw [if_pos rfl]
    by_cases hk : k2 = k
    · subst hk
      rw [if_pos rfl]
      exact dictGet_map_update_self hany
    · rw [if_neg hk]
      exact dictGet_map_update_ne hk

lemma dictGet_foldl_votes (m : String) :
    ∀ (ds : List EmailTools.Metadata) (acc : List (String × String)),
      dictGet
        (ds.foldl
          (fun acc2 d =>
            match classifyVote d with
            | some (m2, v) => dictUpsert acc2 m2 v
            | none => acc2)
          acc) m =
        match lastVoteFor m ds with
        | some v => some v
        | none => dictGet acc m := by
  intro ds
  induction ds with
  | nil =>
    intro acc
    rfl
  | cons d rest ih =>
    intro acc
    rw [List.foldl_cons, ih]
    rcases hc : classifyVote d with - | ⟨m2, v⟩
    · simp only [lastVoteFor, hc]
      rcases hr : lastVoteFor m rest with - | w
      · simp only [hr]
      · simp only [hr]
    · simp only [lastVoteFor, hc]
      rcases hr : lastVoteFor m rest with - | w
      · simp only [hr, dictGet_dictUpsert]
        by_cases hm : m = m2
        · simp [hm]
        · simp [hm, Ne.symm hm]
      · simp only [hr]

lemma dictGet_aggregateVotes (ds : List EmailTools.Metadata) (m : String) :
    dictGet (aggregateVotes ds) m = lastVoteFor m ds := by
  rw [aggregateVotes, dictGet_foldl_votes]
  rcases hl : lastVoteFor m ds with - | v
  · rfl
  · rfl

lemma lastVoteFor_eq_none_iff (m : String) (ds : List EmailTools.Metadata) :
    lastVoteFor m ds = none ↔ ∀ d ∈ ds, ∀ v, classifyVote d ≠ some (m, v) := by
  induction ds with
  | nil => simp [lastVoteFor]
  | cons d rest ih =>
    constructor
    · intro h
      simp only [lastVoteFor] at h
      rcases hr : lastVoteFor m rest with - | w
      · rw [hr] at h
        intro e he v hv
        rcases List.mem_cons.mp he with rfl | he2
        · rw [hv] at h
          by_cases hm : m = m
          · have hb : (m == m) = true := by simp
            simp only [hb, if_true] at h
            exact absurd h (by simp)
          · exact hm rfl
        · exact (ih.mp hr) e he2 v hv
      · rw [hr] at h
        exact absurd h (by simp)
    · intro h
      simp only [lastVoteFor]
      rw [ih.mpr (fun e he v hv => h e (by simp [he]) v hv)]
      rcases hc : classifyVote d with - | ⟨m2, v2⟩
      · rfl
      · have hne := h d (by simp) v2
        rw [hc] at hne
        have hm2 : ¬ m2 = m := by
          intro hb
          exact hne (by rw [hb])
        simp [hm2]

end PanelCoordinator

namespace PanelCoordinator

lemma lastVoteFor_min (m v : String) :
    ∀ ds : List EmailTools.Metadata,
      ds.Pairwise (fun a b => b.timestamp ≤ a.timestamp) →
      lastVoteFor m ds = some v →
      ∃ d, d ∈ ds ∧ classifyVote d = some (m, v) ∧
        ∀ e, e ∈ ds → (∃ v2, classifyVote e = some (m, v2)) → d.timestamp ≤ e.timestamp := by
  intro ds
  induction ds with
  | nil =>
    intro _ h
    exact absurd h (by simp [lastVoteFor])
  | cons d rest ih =>
    intro hsort hlast
    rcases List.pairwise_cons.mp hsort with ⟨hd, hrest⟩
    simp only [lastVoteFor] at hlast
    rcases hr : lastVoteFor m rest with - | w
    · simp only [hr] at hlast
      rcases hc : classifyVote d with - | ⟨m2, v2⟩
      · simp only [hc] at hlast
        exact absurd hlast (by simp)
      · simp only [hc] at hlast
        by_cases hm : m2 = m
        · rw [if_pos (by simp [hm])] at hlast
          have hv2 : v2 = v := by simpa using hlast
          refine ⟨d, by simp, ?_, ?_⟩
          · rw [hc, hm, hv2]
          · intro e he hcl
            rcases List.mem_cons.mp he with rfl | he2
            · exact le_refl _
            · rcases hcl with ⟨v3, hv3⟩
              exact absurd hv3 ((lastVoteFor_eq_none_iff m rest).mp hr e he2 v3)
        · rw [if_neg (by simp [hm])] at hlast
          exact absurd hlast (by simp)
    · simp only [hr] at hlast
      have hw : w = v := by simpa using hlast
      subst hw
      rcases ih hrest hr with ⟨d0, hmem, hclass, hmin⟩
      refine ⟨d0, by simp [hmem], hclass, ?_⟩
      intro e he hcl
      rcases List.mem_cons.mp he with rfl | he2
      · exact hd d0 hmem
      · exact hmin e he2 hcl

lemma argmaxCount_spec (vals : List String) :
    ∀ (cands : List String) (w : String) (n : Nat),
      argmaxCount vals cands = some (w, n) →
      w ∈ cands ∧ n = vals.count w ∧ ∀ c ∈ cands, vals.count c ≤ n := by
  intro cands
  induction cands with
  | nil =>
    intro w n h
    exact absurd h (by simp [argmaxCount])
  | cons c cs ih =>
    intro w n h
    simp only [argmaxCount] at h
    rcases h2 : argmaxCount vals cs with - | ⟨w2, n2⟩
    · simp only [h2] at h
      have hw : c = w ∧ vals.count c = n := by simpa using h
      rcases hw with ⟨rfl, rfl⟩
      have hcs : cs = [] := by
        cases cs with
        | nil => rfl
        | cons x xs =>
          exfalso
          simp only [argmaxCount] at h2
          rcases h3 : argmaxCount vals xs with - | p
          · simp only [h3] at h2
            exact absurd h2 (by simp)
          · simp only [h3] at h2
            by_cases h4 : vals.count x > p.2
            · rw [if_pos h4] at h2
              exact absurd h2 (by simp)
            · rw [if_neg h4] at h2
              exact absurd h2 (by simp)
      subst hcs
      exact ⟨by simp, rfl, by simp⟩
    · simp only [h2] at h
      rcases ih w2 n2 h2 with ⟨hmem, hcount, hmax⟩
      by_cases h4 : vals.count c > n2
      · rw [if_pos h4] at h
        have hw : c = w ∧ vals.count c = n := by simpa using h
        rcases hw with ⟨rfl, rfl⟩
        refine ⟨by simp, rfl, ?_⟩
        intro x hx
        rcases List.mem_cons.mp hx with rfl | hx2
        · exact le_refl _
        · exact le_trans (hmax x hx2) (le_of_lt h4)
      · rw [if_neg h4] at h
        have hw : w2 = w ∧ n2 = n := by simpa using h
        rcases hw with ⟨rfl, rfl⟩
        refine ⟨by simp [hmem], hcount, ?_⟩
        intro x hx
        rcases List.mem_cons.mp hx with rfl | hx2
        · exact le_of_not_lt h4
        · exact hmax x hx2

lemma argmaxCount_cons_ne_none (vals : List String) (c : String) (cs : List String) :
    argmaxCount vals (c :: cs) ≠ none := by
  simp only [argmaxCount]
  rcases h : argmaxCount vals cs with - | p
  · simp
  · simp only []
    by_cases h2 : vals.count c > p.2
    · rw [if_pos h2]
      simp
    · rw [if_neg h2]
      simp

lemma count_pair_le_length {a b : String} (h : a ≠ b) :
    ∀ l : List String, l.count a + l.count b ≤ l.length := by
  intro l
  induction l with
  | nil => simp
  | cons x xs ih =>
    rw [List.count_cons, List.count_cons, List.length_cons]
    simp only [beq_iff_eq]
    by_cases hax : x = a <;> by_cases hbx : x = b
    · exact absurd (hax.symm.trans hbx) h
    · rw [if_pos hax, if_neg hbx]
      omega
    · rw [if_neg hax, if_pos hbx]
      omega
    · rw [if_neg hax, if_neg hbx]
      omega

lemma dedup_all_eq_singleton {l : List String} {v : String}
    (hne : l ≠ []) (hall : ∀ x ∈ l, x = v) : l.dedup = [v] := by
  induction l with
  | nil => exact absurd rfl hne
  | cons a t ih =>
    have ha : a = v := hall a (by simp)
    cases t with
    | nil =>
      rw [List.dedup_cons_of_not_mem (by simp), List.dedup_nil, ha]
    | cons b t2 =>
      have hbt : ∀ x ∈ b :: t2, x = v := fun x hx => hall x (by simp [hx])
      have hb : b = v := hbt b (by simp)
      have hmem : a ∈ b :: t2 := by
        rw [ha, ← hb]
        exact List.mem_cons_self b t2
      rw [List.dedup_cons_of_mem hmem]
      exact ih (by simp) hbt

lemma dedup_singleton_all_eq {l : List String} {v : String}
    (h : l.dedup = [v]) : l ≠ [] ∧ ∀ x ∈ l, x = v := by
  constructor
  · intro hl
    rw [hl] at h
    exact absurd h (by simp)
  · intro x hx
    have hxd : x ∈ l.dedup := List.mem_dedup.mpr hx
    rw [h] at hxd
    simpa using hxd

end PanelCoordinator

/-- Claim C1: the spec requires that truncation to `limit` happens after
sorting, so a search with limit k and at least k matches returns exactly
the k most recent matches. The code instead breaks out of the scan loop
as soon as k matches are collected, BEFORE sorting, and treats `limit=0`
as no limit. Evaluation at the failing input: two matching messages with
timestamps 100 and 200 stored in that enumeration order; with limit 1 the
code returns the timestamp-100 message although the timestamp-200 message
also matches, and with limit 0 it returns both messages. -/
theorem c1_code_truncates_during_scan :
    (EmailTools.search parseDateSample [("k1", msgTs100), ("k2", msgTs200)] critLimit1).map
      (fun x => x.timestamp) = [100] ∧
    EmailTools.matchesCriteria critLimit1
      (EmailTools.extractMetadata parseDateSample msgTs200 "k2") = true ∧
    (EmailTools.extractMetadata parseDateSample msgTs200 "k2").timestamp = 200 ∧
    (EmailTools.search parseDateSample [("k1", msgTs100), ("k2", msgTs200)] critLimit0).map
      (fun x => x.timestamp) = [200, 100] :=
  ⟨by decide, by decide, by decide, by decide⟩

/-- Claim C2: the spec requires thread resolution to repeat scans until a
fixpoint, so the thread of id 1 over A(id 1), B(reply-to 1, id 2),
C(reply-to 2, id 3) is {A,B,C} for EVERY physical order. The code performs
exactly one linear pass, so the enumeration order A,B,C finds all three
messages but the order C,B,A misses C (its reply-to id 2 is only learned
after C was already visited). -/
theorem c2_single_pass_thread_is_order_dependent :
    (EmailTools.get_thread parseDateSample
        [("ka", msgThreadA), ("kb", msgThreadB), ("kc", msgThreadC)] "<1>").map
      (fun x => x.messageId) = ["<1>", "<2>", "<3>"] ∧
    (EmailTools.get_thread parseDateSample
        [("kc", msgThreadC), ("kb", msgThreadB), ("ka", msgThreadA)] "<1>").map
      (fun x => x.messageId) = ["<1>", "<2>"] :=
  ⟨by decide, by decide⟩

/-- Claim C3, counterexample: with an unrecognized decision-model tag but
zero decision messages, `check_consensus` returns no consensus instead of
failing with a `ValidationError`, because the empty-decisions early
return precedes the decision-model dispatch. -/
theorem c3_counterexample :
    PanelCoordinator.check_consensus ["claude"] "weighted-vote" [] = Except.ok none := rfl

/-- Claim C3, amended: an unrecognized decision-model tag fails with a
`ValidationError` (`ValueError` in the code) whenever at least one
per-member vote was extracted; with zero decision messages or zero
extractable votes the evaluation returns `NoConsensus` before the
decision model is examined. In no case does an unrecognized tag fall back
to a default policy: the result is never a verdict. -/
theorem c3_unknown_model_fails_closed :
    ∀ (members : List String) (model : String) (decisions : List EmailTools.Metadata),
      model ≠ "consensus" → model ≠ "majority" → model ≠ "primary-decides" →
      (PanelCoordinator.aggregateVotes decisions ≠ [] →
        PanelCoordinator.check_consensus members model decisions =
          Except.error ("Unknown decision model: " ++ model)) ∧
      (∀ r, PanelCoordinator.check_consensus members model decisions = Except.ok r →
        r = none) := by
  intro members model decisions h1 h2 h3
  simp only [PanelCoordinator.check_consensus]
  by_cases hd : decisions.isEmpty = true
  · rw [if_pos hd]
    constructor
    · intro hagg
      exfalso
      apply hagg
      rw [List.isEmpty_iff.mp hd]
      rfl
    · intro r hr
      simpa using (Except.ok.inj hr).symm
  · rw [if_neg hd]
    by_cases hv : (PanelCoordinator.aggregateVotes decisions).isEmpty = true
    · rw [if_pos hv]
      constructor
      · intro hagg
        exact absurd (List.isEmpty_iff.mp hv) hagg
      · intro r hr
        simpa using (Except.ok.inj hr).symm
    · rw [if_neg hv]
      simp only [PanelCoordinator.applyDecisionModel]
      rw [if_neg (by simp [h1]), if_neg (by simp [h2]), if_neg (by simp [h3])]
      constructor
      · intro _
        rfl
      · intro r hr
        exact absurd hr (by simp)

/-- Witness for the amended claim C3: the tag `weighted-vote` with one
classifiable decision message raises the unknown-model error. -/
theorem c3_witness :
    PanelCoordinator.check_consensus ["claude"] "weighted-vote" [wUnknownModelVote] =
      Except.error ("Unknown decision model: " ++ "weighted-vote") :=
  (c3_unknown_model_fails_closed ["claude"] "weighted-vote" [wUnknownModelVote]
      (by decide) (by decide) (by decide)).1 (by decide)

/-- Claim C10, counterexample: ties on equal timestamps are NOT broken by
key ordering: the stable sort keeps the store enumeration order, so the
same two stored messages (keys `a` and `b`, equal timestamps) come back
as `a,b` under one enumeration and as `b,a` under the other, and neither
run consulted the keys. -/
theorem c10_counterexample :
    (EmailTools.search parseDateSample [("a", msgEqP), ("b", msgEqQ)] noCriteria).map
      (fun x => x.key) = ["a", "b"] ∧
    (EmailTools.search parseDateSample [("b", msgEqQ), ("a", msgEqP)] noCriteria).map
      (fun x => x.key) = ["b", "a"] :=
  ⟨by decide, by decide⟩

/-- Claim C10, amended: search results are sorted by timestamp descending,
and messages with equal timestamps keep the relative order in which the
scan collected them (Python `list.sort` is stable); the order is therefore
deterministic for a fixed store enumeration order, but equal-timestamp
results are not reordered by key. -/
theorem c10_sorted_desc_and_stable :
    ∀ (pd : String → Option Int) (store : List (String × EmailTools.RawMsg))
      (c : EmailTools.Criteria),
      (EmailTools.search pd store c).Pairwise (fun a b => b.timestamp ≤ a.timestamp) ∧
      ∀ t : Int, (EmailTools.search pd store c).filter (fun y => y.timestamp == t) =
        (EmailTools.searchScan pd c store []).filter (fun y => y.timestamp == t) := by
  intro pd store c
  exact ⟨EmailTools.sortTsDesc_pairwise _, fun t => EmailTools.sortTsDesc_filter t _⟩

/-- Claim C4: under the unanimous decision model (tag `consensus` in the
code), a non-empty per-member vote map in which every member voted the
same value yields that value as the verdict, and any two differing votes
yield no consensus. -/
theorem c4_unanimous_policy :
    ∀ (members : List String) (votes : List (String × String)) (v : String),
      votes ≠ [] →
      ((∀ p ∈ votes, p.2 = v) →
        PanelCoordinator.applyDecisionModel members "consensus" votes = Except.ok (some v)) ∧
      ((∃ p, p ∈ votes ∧ ∃ q, q ∈ votes ∧ p.2 ≠ q.2) →
        PanelCoordinator.applyDecisionModel members "consensus" votes = Except.ok none) := by
  intro members votes v hne
  constructor
  · intro hall
    have hmap : ∀ x ∈ votes.map (fun p => p.2), x = v := by
      intro x hx
      rcases List.mem_map.mp hx with ⟨p, hp, rfl⟩
      exact hall p hp
    have hmapne : votes.map (fun p => p.2) ≠ [] := by
      simpa using hne
    have hd := PanelCoordinator.dedup_all_eq_singleton hmapne hmap
    have hc1 : ("consensus" == "consensus") = true := rfl
    simp only [PanelCoordinator.applyDecisionModel]
    rw [if_pos hc1, hd]
  · rintro ⟨p, hp, q, hq, hpq⟩
    have hc1 : ("consensus" == "consensus") = true := rfl
    simp only [PanelCoordinator.applyDecisionModel]
    rw [if_pos hc1]
    rcases hdd : (votes.map (fun p2 => p2.2)).dedup with - | ⟨w, tl⟩
    · rw [hdd]
    · cases tl with
      | nil =>
        exfalso
        rcases PanelCoordinator.dedup_singleton_all_eq hdd with ⟨-, hallw⟩
        have hpv : p.2 = w := hallw _ (List.mem_map.mpr ⟨p, hp, rfl⟩)
        have hqv : q.2 = w := hallw _ (List.mem_map.mpr ⟨q, hq, rfl⟩)
        exact hpq (hpv.trans hqv.symm)
      | cons w2 tl2 => rw [hdd]

/-- Witness for claim C4: three identical approve votes yield approve,
and a split approve/approve/reject vote map yields no consensus. -/
theorem c4_witness :
    PanelCoordinator.applyDecisionModel [] "consensus"
      [("a", "approve"), ("b", "approve"), ("c", "approve")] = Except.ok (some "approve") ∧
    PanelCoordinator.applyDecisionModel [] "consensus"
      [("a", "approve"), ("b", "approve"), ("c", "reject")] = Except.ok none :=
  ⟨(c4_unanimous_policy [] _ "approve" (by decide)).1 (by decide),
   (c4_unanimous_policy [] _ "approve" (by decide)).2
     ⟨("a", "approve"), by decide, ("c", "reject"), by decide, by decide⟩⟩

/-- Claim C5: under the majority decision model, a vote held by strictly
more than half of all voting members is the verdict, and when no vote
exceeds half (including every exact tie) the outcome is no consensus.
The per-member vote map is non-empty whenever this dispatch is reached. -/
theorem c5_majority_policy :
    ∀ (members : List String) (votes : List (String × String)),
      votes ≠ [] →
      (∀ v, 2 * (votes.map (fun p => p.2)).count v > votes.length →
        PanelCoordinator.applyDecisionModel members "majority" votes = Except.ok (some v)) ∧
      ((∀ v ∈ votes.map (fun p => p.2), 2 * (votes.map (fun p => p.2)).count v ≤ votes.length) →
        PanelCoordinator.applyDecisionModel members "majority" votes = Except.ok none) := by
  intro members votes hne
  have hvne : votes.map (fun p => p.2) ≠ [] := by simpa using hne
  obtain ⟨c0, cs0, hdd⟩ :
      ∃ c0 cs0, (votes.map (fun p => p.2)).dedup = c0 :: cs0 := by
    rcases h : (votes.map (fun p => p.2)).dedup with - | ⟨c0, cs0⟩
    · exact absurd ((List.dedup_eq_nil _).mp h) hvne
    · exact ⟨c0, cs0, h⟩
  obtain ⟨w, n, hmc⟩ :
      ∃ w n, PanelCoordinator.argmaxCount (votes.map (fun p => p.2))
        ((votes.map (fun p => p.2)).dedup) = some (w, n) := by
    rw [hdd]
    rcases h2 : PanelCoordinator.argmaxCount (votes.map (fun p => p.2)) (c0 :: cs0)
        with - | ⟨w, n⟩
    · exact absurd h2 (PanelCoordinator.argmaxCount_cons_ne_none _ _ _)
    · exact ⟨w, n, h2⟩
  rcases PanelCoordinator.argmaxCount_spec (votes.map (fun p => p.2))
      ((votes.map (fun p => p.2)).dedup) w n hmc with ⟨hwmem, hn, hmax⟩
  have hlen : (votes.map (fun p => p.2)).length = votes.length := List.length_map _ _
  have hlenpos : 0 < votes.length := List.length_pos.mpr hne
  constructor
  · intro v hv
    have hvpos : 0 < (votes.map (fun p => p.2)).count v := by omega
    have hvmem : v ∈ votes.map (fun p => p.2) := by
      by_contra hvn
      rw [List.count_eq_zero_of_not_mem hvn] at hvpos
      omega
    have hvd : v ∈ (votes.map (fun p => p.2)).dedup := List.mem_dedup.mpr hvmem
    have hcnt : (votes.map (fun p => p.2)).count v ≤ n := hmax v hvd
    have hwv : w = v := by
      by_contra hwv
      have hdisj := PanelCoordinator.count_pair_le_length hwv (votes.map (fun p => p.2))
      omega
    subst hwv
    have hm1 : ¬ (("majority" == "consensus") = true) := by decide
    have hm2 : ("majority" == "majority") = true := rfl
    simp only [PanelCoordinator.applyDecisionModel, PanelCoordinator.mostCommon1]
    rw [if_neg hm1, if_pos hm2]
    simp only [hmc]
    rw [if_pos (by omega)]
  · intro hall
    have hm1 : ¬ (("majority" == "consensus") = true) := by decide
    have hm2 : ("majority" == "majority") = true := rfl
    simp only [PanelCoordinator.applyDecisionModel, PanelCoordinator.mostCommon1]
    rw [if_neg hm1, if_pos hm2]
    simp only [hmc]
    have hwmem2 : w ∈ votes.map (fun p => p.2) := List.mem_dedup.mp hwmem
    have hwle := hall w hwmem2
    rw [if_neg (by omega)]

/-- Witness for claim C5: approve/approve/reject over 3 voters yields
approve (2-of-3 is more than half) and approve/reject over 2 voters is an
exact tie, yielding no consensus. -/
theorem c5_witness :
    PanelCoordinator.applyDecisionModel [] "majority"
      [("a", "approve"), ("b", "approve"), ("c", "reject")] = Except.ok (some "approve") ∧
    PanelCoordinator.applyDecisionModel [] "majority"
      [("a", "approve"), ("b", "reject")] = Except.ok none :=
  ⟨(c5_majority_policy [] _ (by decide)).1 "approve" (by decide),
   (c5_majority_policy [] _ (by decide)).2 (by decide)⟩

/-- Claim C6: under the primary-decides decision model with a non-empty
member list, the verdict is the first-listed member's vote when that
member appears in the vote map, and no consensus when the first member
has not voted, no matter what the other entries of the vote map hold. -/
theorem c6_primary_decides_policy :
    ∀ (p : String) (rest : List String) (votes : List (String × String)) (v : String),
      (PanelCoordinator.dictGet votes p = some v →
        PanelCoordinator.applyDecisionModel (p :: rest) "primary-decides" votes =
          Except.ok (some v)) ∧
      (PanelCoordinator.dictGet votes p = none →
        PanelCoordinator.applyDecisionModel (p :: rest) "primary-decides" votes =
          Except.ok none) := by
  intro p rest votes v
  have hp1 : ¬ (("primary-decides" == "consensus") = true) := by decide
  have hp2 : ¬ (("primary-decides" == "majority") = true) := by decide
  have hp3 : ("primary-decides" == "primary-decides") = true := rfl
  constructor
  · intro h
    simp only [PanelCoordinator.applyDecisionModel]
    rw [if_neg hp1, if_neg hp2, if_pos hp3]
    simp only [h]
  · intro h
    simp only [PanelCoordinator.applyDecisionModel]
    rw [if_neg hp1, if_neg hp2, if_pos hp3]
    simp only [h]

/-- Witness for claim C6: with members `p, q`, the vote of `p` (reject)
overrides the vote of `q`; and when only `q` voted, the outcome is no
consensus even though every member who voted agrees. -/
theorem c6_witness :
    PanelCoordinator.applyDecisionModel ["p", "q"] "primary-decides"
      [("q", "approve"), ("p", "reject")] = Except.ok (some "reject") ∧
    PanelCoordinator.applyDecisionModel ["p", "q"] "primary-decides"
      [("q", "approve")] = Except.ok none :=
  ⟨(c6_primary_decides_policy "p" ["q"] _ "reject").1 (by decide),
   (c6_primary_decides_policy "p" ["q"] _ "approve").2 (by decide)⟩

/-- Claim C7: the member identity used for vote aggregation is the part of
the sender address before the first `@` (the whole sender string when no
`@` occurs), and the vote is derived from the (lowercased) subject by
checking the substrings `approve`, then `reject`, then `revision` or
`clarification`, in that fixed priority order, the first match winning
even when several keywords occur; a subject with no keyword contributes
no vote. -/
theorem c7_member_and_vote_extraction :
    ∀ (d : EmailTools.Metadata),
      (d.fromAddr.toList.contains '@' = false →
        PanelCoordinator.memberOfFrom d.fromAddr = d.fromAddr) ∧
      (∀ pre post : List Char, d.fromAddr.toList = pre ++ '@' :: post → '@' ∉ pre →
        PanelCoordinator.memberOfFrom d.fromAddr = String.mk pre) ∧
      (occursIn "approve" (pyLower d.subject) →
        PanelCoordinator.classifyVote d =
          some (PanelCoordinator.memberOfFrom d.fromAddr, "approve")) ∧
      (¬ occursIn "approve" (pyLower d.subject) → occursIn "reject" (pyLower d.subject) →
        PanelCoordinator.classifyVote d =
          some (PanelCoordinator.memberOfFrom d.fromAddr, "reject")) ∧
      (¬ occursIn "approve" (pyLower d.subject) → ¬ occursIn "reject" (pyLower d.subject) →
        (occursIn "revision" (pyLower d.subject) ∨
          occursIn "clarification" (pyLower d.subject)) →
        PanelCoordinator.classifyVote d =
          some (PanelCoordinator.memberOfFrom d.fromAddr, "request-revision")) ∧
      (¬ occursIn "approve" (pyLower d.subject) → ¬ occursIn "reject" (pyLower d.subject) →
        ¬ occursIn "revision" (pyLower d.subject) →
        ¬ occursIn "clarification" (pyLower d.subject) →
        PanelCoordinator.classifyVote d = none) := by
  intro d
  have hfalse : ∀ pat : String, ¬ occursIn pat (pyLower d.subject) →
      pySubstr pat (pyLower d.subject) = false := by
    intro pat hno
    cases hq : pySubstr pat (pyLower d.subject)
    · rfl
    · exact absurd ((pySubstr_iff _ _).mp hq) hno
  refine ⟨?_, ?_, ?_, ?_, ?_, ?_⟩
  · intro h
    rw [PanelCoordinator.memberOfFrom, if_neg (by simpa using h)]
  · intro pre post hsplit hnot
    rw [PanelCoordinator.memberOfFrom, if_pos (by rw [hsplit]; simp)]
    rw [hsplit, takeWhile_ne_append hnot]
  · intro h
    have hb : pySubstr "approve" (pyLower d.subject) = true := (pySubstr_iff _ _).mpr h
    simp only [PanelCoordinator.classifyVote, PanelCoordinator.voteOfSubject, hb, if_true]
    rfl
  · intro hna h
    have hb : pySubstr "reject" (pyLower d.subject) = true := (pySubstr_iff _ _).mpr h
    simp only [PanelCoordinator.classifyVote, PanelCoordinator.voteOfSubject,
      hfalse _ hna, hb, if_true]
    rfl
  · intro hna hnr h
    have hb : (pySubstr "revision" (pyLower d.subject) ||
        pySubstr "clarification" (pyLower d.subject)) = true := by
      rcases h with h | h
      · rw [(pySubstr_iff _ _).mpr h]
        rfl
      · rw [(pySubstr_iff _ _).mpr h, Bool.or_true]
    simp only [PanelCoordinator.classifyVote, PanelCoordinator.voteOfSubject,
      hfalse _ hna, hfalse _ hnr, hb, if_true]
    rfl
  · intro hna hnr hnv hnc
    simp only [PanelCoordinator.classifyVote, PanelCoordinator.voteOfSubject,
      hfalse _ hna, hfalse _ hnr, hfalse _ hnv, hfalse _ hnc]
    rfl

/-- Witness for claim C7: the sender `gpt-5@panel.local` is counted as
member `gpt-5`, and the subject `approve with reservations, reject
otherwise` classifies as approve although it also contains `reject`. -/
theorem c7_witness :
    PanelCoordinator.classifyVote wExtractionMsg =
      some (PanelCoordinator.memberOfFrom wExtractionMsg.fromAddr, "approve") ∧
    PanelCoordinator.memberOfFrom wExtractionMsg.fromAddr =
      String.mk ['g', 'p', 't', '-', '5'] :=
  ⟨(c7_member_and_vote_extraction wExtractionMsg).2.2.1
      ⟨"", " with reservations, reject otherwise", by decide⟩,
   (c7_member_and_vote_extraction wExtractionMsg).2.1
      ['g', 'p', 't', '-', '5'] "panel.local".toList (by decide) (by decide)⟩

/-- Claim C8: when the decision list is sorted most-recent-first (as the
search in `check_consensus` guarantees) and the aggregated map holds vote
v for member m, that vote comes from a classifiable message of m whose
timestamp is minimal among all of the classifiable messages of m in the
window: the aggregation loop overwrites the per-member entry on every
classifiable message, so the last write (the oldest message) wins. -/
theorem c8_oldest_vote_wins :
    ∀ (ds : List EmailTools.Metadata) (m v : String),
      ds.Pairwise (fun a b => b.timestamp ≤ a.timestamp) →
      PanelCoordinator.dictGet (PanelCoordinator.aggregateVotes ds) m = some v →
      ∃ d, d ∈ ds ∧ PanelCoordinator.classifyVote d = some (m, v) ∧
        ∀ e, e ∈ ds → (∃ v2, PanelCoordinator.classifyVote e = some (m, v2)) →
          d.timestamp ≤ e.timestamp := by
  intro ds m v hsort h
  rw [PanelCoordinator.dictGet_aggregateVotes] at h
  rcases PanelCoordinator.lastVoteFor_min m v ds hsort h with ⟨d, hmem, hcl, hmin⟩
  exact ⟨d, hmem, hcl, hmin⟩

/-- Witness for claim C8: one member sent a reject at timestamp 10 and an
approve at timestamp 5; over the recency-sorted list, the counted vote is
the approve from the older message. -/
theorem c8_witness :
    ∃ d, d ∈ wMemberHistory ∧
      PanelCoordinator.classifyVote d = some ("claude", "approve") ∧
      ∀ e, e ∈ wMemberHistory →
        (∃ v2, PanelCoordinator.classifyVote e = some ("claude", v2)) →
        d.timestamp ≤ e.timestamp :=
  c8_oldest_vote_wins wMemberHistory "claude" "approve" (by decide) (by decide)

/-- Claim C9: metadata extraction never fails: the timestamp is a function
of the date string alone (so equal date strings always give equal
timestamps, including the fallback), an unparsable date gives timestamp 0,
and such a message is silently excluded by every `since` filter with a
positive cutoff while the scan of all other messages is unaffected. -/
theorem c9_unparsable_date_is_harmless :
    ∀ (pd : String → Option Int) (msg : EmailTools.RawMsg) (k : String),
      (∀ (msg2 : EmailTools.RawMsg) (k2 : String), msg2.date = msg.date →
        (EmailTools.extractMetadata pd msg2 k2).timestamp =
          (EmailTools.extractMetadata pd msg k).timestamp) ∧
      (pd msg.date = none →
        (EmailTools.extractMetadata pd msg k).timestamp = 0 ∧
        ∀ (c : EmailTools.Criteria) (cutoff : Int)
          (pre post : List (String × EmailTools.RawMsg)),
          c.sinceCutoff = some cutoff → 0 < cutoff →
          EmailTools.search pd (pre ++ (k, msg) :: post) c =
            EmailTools.search pd (pre ++ post) c) := by
  intro pd msg k
  constructor
  · intro msg2 k2 hdate
    simp only [EmailTools.extractMetadata, hdate]
  · intro hnone
    have hts : (EmailTools.extractMetadata pd msg k).timestamp = 0 := by
      simp only [EmailTools.extractMetadata, hnone]
    refine ⟨hts, ?_⟩
    intro c cutoff pre post hc hpos
    have hmatch : EmailTools.matchesCriteria c (EmailTools.extractMetadata pd msg k) = false := by
      rw [EmailTools.matchesCriteria]
      have hsince : EmailTools.matchesSince c.sinceCutoff
          (EmailTools.extractMetadata pd msg k).timestamp = false := by
        rw [hc, hts]
        simp only [EmailTools.matchesSince]
        rw [decide_eq_false (by omega), decide_eq_false (by omega)]
        rfl
      rw [hsince]
      rfl
    rw [EmailTools.search, EmailTools.search, EmailTools.searchScan_skip hmatch]

/-- Witness for claim C9: the message with date `garbage` gets timestamp
0 and a search with cutoff 50 over the store holding it returns exactly
the result of the same search without it. -/
theorem c9_witness :
    (EmailTools.extractMetadata parseDateSample msgBadDate "kb").timestamp = 0 ∧
    EmailTools.search parseDateSample [("kg", msgTs100), ("kb", msgBadDate)] critSince50 =
      EmailTools.search parseDateSample [("kg", msgTs100)] critSince50 :=
  ⟨((c9_unparsable_date_is_harmless parseDateSample msgBadDate "kb").2 rfl).1,
   ((c9_unparsable_date_is_harmless parseDateSample msgBadDate "kb").2 rfl).2
      critSince50 50 [("kg", msgTs100)] [] rfl (by decide)⟩
